import Mathlib

/-
Verification development for the subscription-service repository.

The core under study is the overlap-and-proration aggregation engine:
the SQL query of store.AggregateTotal, the retrieval query of
store.FindSubscriptionsOverlapping (internal/db), and the two service
entry points Aggregate and AggregateWithDetails
(internal/service/subscription.go).

Modelling choices:
- Months. All dates reaching the engine are first-of-month dates
  (the handler parses MM-YYYY and to_date normalizes the day to 1), so a
  date is embedded as a (year, month) pair of integers.  SQL date
  comparison on first-of-month dates is lexicographic on (year, month).
- The subscriptions table is embedded as a list of rows; the SQL WHERE
  clause becomes a Bool predicate and ORDER BY service_name becomes a
  stable sort by the byte order of the name (the base row order of the
  table is unspecified, so a stable sort over the stored order is one
  admissible refinement of ORDER BY).
- Postgres ILIKE is embedded by a full LIKE pattern matcher (percent,
  underscore, backslash escape, case-insensitive character comparison),
  because the Go code splices the user filter into the pattern
  "%" + filter + "%" without escaping metacharacters.
- The fallible repository round-trip is embedded by handing the service
  functions the outcome of the call, of type Except E _, where E is an
  arbitrary error type standing for Go's error interface.
-/

namespace SubscriptionService

/-- A calendar month: the semantic value of a first-of-month SQL date or of a
parsed MM-YYYY boundary value. -/
structure Month where
  year : Int
  month : Int
deriving DecidableEq, Repr

/-- SQL date order restricted to first-of-month dates: lexicographic on
(year, month). -/
def Month.le (a b : Month) : Bool :=
  decide (a.year < b.year ∨ (a.year = b.year ∧ a.month ≤ b.month))

/-- Strict SQL date order restricted to first-of-month dates. -/
def Month.lt (a b : Month) : Bool :=
  decide (a.year < b.year ∨ (a.year = b.year ∧ a.month < b.month))

/-- SQL GREATEST of two first-of-month dates. -/
def Month.greatest (a b : Month) : Month :=
  if Month.le a b then b else a

/-- SQL LEAST of two first-of-month dates. -/
def Month.least (a b : Month) : Month :=
  if Month.le a b then a else b

/-- Linear month index, counting months on one integer axis. -/
def Month.idx (m : Month) : Int :=
  12 * m.year + m.month

/-- A month value that denotes a real calendar month, as produced by
to_date(_, 'MM-YYYY') or time.Parse("01-2006"): the month number lies
in 1..12. -/
def Month.valid (m : Month) : Prop :=
  1 ≤ m.month ∧ m.month ≤ 12

instance (m : Month) : Decidable (Month.valid m) := by
  unfold Month.valid
  infer_instance

/-- One row of the subscriptions table (internal/model/subscription.go).
The user id is kept as an opaque string, prices are machine integers kept
as unbounded integers. -/
structure Subscription where
  id : String
  serviceName : String
  price : Int
  userID : String
  startDate : Month
  endDate : Option Month
deriving DecidableEq, Repr

/-- One row of the breakdown built by service.AggregateWithDetails
(model.SubscriptionInfo).  The Go Number field holds the loop index plus
one, which is never negative, so it is embedded as a natural number. -/
structure SubscriptionInfo where
  number : Nat
  serviceName : String
  price : Int
  userID : String
deriving DecidableEq, Repr

/-- Embedding of date_part('year', age(hi, lo)) for two first-of-month
dates: age yields a whole number of years and months (and zero days), and
the year part is the Euclidean quotient of the month span by 12. -/
def ageYears (lo hi : Month) : Int :=
  (Month.idx hi - Month.idx lo) / 12

/-- Embedding of date_part('month', age(hi, lo)) for two first-of-month
dates: the month part left over after extracting whole years. -/
def ageMonthsPart (lo hi : Month) : Int :=
  (Month.idx hi - Month.idx lo) % 12

/-- GREATEST(start_date, from), the lower clip of the CASE inside
store.AggregateTotal's SQL. -/
def overlapLo (f : Month) (sub : Subscription) : Month :=
  Month.greatest sub.startDate f

/-- LEAST(COALESCE(end_date, to), to), the upper clip of the CASE inside
store.AggregateTotal's SQL. -/
def overlapHi (t : Month) (sub : Subscription) : Month :=
  Month.least (sub.endDate.getD t) t

/-- The months expression of the CASE inside store.AggregateTotal's SQL:
when hi >= lo the value is years-of-age times 12 plus months-of-age plus
one, otherwise 0. -/
def overlapMonths (f t : Month) (sub : Subscription) : Int :=
  if Month.le (overlapLo f sub) (overlapHi t sub) then
    ageYears (overlapLo f sub) (overlapHi t sub) * 12 +
      ageMonthsPart (overlapLo f sub) (overlapHi t sub) + 1
  else 0

/-- Postgres LIKE pattern matching over character lists: percent matches
any sequence, underscore matches any single character, backslash escapes
the following pattern character, any other character matches itself; the
whole text must be consumed.  Characters are compared through
Char.toLower, which makes this the ILIKE variant. -/
def likeMatch : List Char → List Char → Bool
  | [], t => t.isEmpty
  | p :: ps, t =>
    if p = '%' then t.tails.any fun s => likeMatch ps s
    else if p = '_' then
      match t with
      | [] => false
      | _ :: ts => likeMatch ps ts
    else if p = '\\' then
      match ps with
      | [] => false
      | q :: ps1 =>
        match t with
        | [] => false
        | d :: ts => (Char.toLower q == Char.toLower d) && likeMatch ps1 ts
    else
      match t with
      | [] => false
      | d :: ts => (Char.toLower p == Char.toLower d) && likeMatch ps ts

/-- text ILIKE pattern, on the string types of the model. -/
def ilike (text pat : String) : Bool :=
  likeMatch pat.data text.data

/-- Filter preprocessing shared by store.AggregateTotal and
store.FindSubscriptionsOverlapping: a nil or empty user filter becomes
SQL NULL, anything else is passed through. -/
def effUserID (userID : Option String) : Option String :=
  match userID with
  | none => none
  | some u => if u = "" then none else some u

/-- Filter preprocessing for the service-name filter: a nil or empty
filter becomes SQL NULL, anything else is wrapped into the pattern
percent-filter-percent. -/
def effServicePattern (serviceName : Option String) : Option String :=
  match serviceName with
  | none => none
  | some s => if s = "" then none else some ("%" ++ s ++ "%")

/-- The WHERE clause shared by the two aggregation queries, applied to one
row, with already-preprocessed filters: start_date <= to AND (end_date IS
NULL OR end_date >= from) AND (uid IS NULL OR user_id = uid) AND (pat IS
NULL OR service_name ILIKE pat). -/
def matchesWhere (f t : Month) (uid pat : Option String) (sub : Subscription) : Bool :=
  Month.le sub.startDate t &&
  (match sub.endDate with
   | none => true
   | some e => Month.le f e) &&
  (match uid with
   | none => true
   | some u => sub.userID == u) &&
  (match pat with
   | none => true
   | some p => ilike sub.serviceName p)

/-- Byte-order comparison of two character lists; the embedding of the
collation order used by ORDER BY service_name. -/
def charListLE : List Char → List Char → Bool
  | [], _ => true
  | _ :: _, [] => false
  | c :: cs, d :: ds => if c = d then charListLE cs ds else decide (c < d)

/-- Row order of ORDER BY service_name, as a relation on rows. -/
def nameLe (a b : Subscription) : Prop :=
  charListLE a.serviceName.data b.serviceName.data = true

instance : DecidableRel nameLe := fun a b => by
  unfold nameLe
  infer_instance

/-- store.AggregateTotal: the aggregation SQL over the embedded table.
COALESCE(SUM(price * months), 0) over the rows admitted by the WHERE
clause, with months given by the CASE expression. -/
def AggregateTotal (rows : List Subscription) (f t : Month)
    (userID serviceName : Option String) : Int :=
  ((rows.filter (matchesWhere f t (effUserID userID) (effServicePattern serviceName))).map
    fun sub => sub.price * overlapMonths f t sub).sum

/-- store.FindSubscriptionsOverlapping: the retrieval SQL over the
embedded table, ORDER BY service_name embedded as a stable sort of the
admitted rows. -/
def FindSubscriptionsOverlapping (rows : List Subscription) (f t : Month)
    (userID serviceName : Option String) : List Subscription :=
  List.insertionSort nameLe
    (rows.filter (matchesWhere f t (effUserID userID) (effServicePattern serviceName)))

/-- service.Aggregate, applied to the outcome of the repository call: on
error return 0 and the error unchanged, on success return the total and
no error. -/
def Aggregate {E : Type} (repoTotal : Except E Int) : Int × Option E :=
  match repoTotal with
  | Except.error e => (0, some e)
  | Except.ok total => (total, none)

/-- service.AggregateWithDetails, applied to the outcome of the
repository call: on error return no breakdown, 0 and the error unchanged;
on success walk the retrieved rows once, accumulating the flat price of
each row into the total and emitting a breakdown row numbered with the
loop index plus one.  The Go success path starts from a non-nil empty
slice, so the breakdown is wrapped in some; the error path returns the
nil slice, embedded as none. -/
def AggregateWithDetails {E : Type} (repoSubs : Except E (List Subscription)) :
    Option (List SubscriptionInfo) × Int × Option E :=
  match repoSubs with
  | Except.error e => (none, 0, some e)
  | Except.ok subs =>
    (some ((List.enumFrom 0 subs).map fun p =>
      { number := p.1 + 1
        serviceName := p.2.serviceName
        price := p.2.price
        userID := p.2.userID }),
     (subs.map fun sub => sub.price).sum,
     none)

/-- The overlap computation in the words of the specification: the
effective end is the end date when present and the window end otherwise;
lo and hi clip to the window; if hi is before lo the overlap is 0 and
otherwise it is the inclusive month count between lo and hi. -/
def overlapMonthsSpec (f t : Month) (sub : Subscription) : Int :=
  let effectiveEnd :=
    match sub.endDate with
    | some e => e
    | none => t
  let lo := Month.greatest sub.startDate f
  let hi := Month.least effectiveEnd t
  if Month.lt hi lo then 0
  else (hi.year - lo.year) * 12 + (hi.month - lo.month) + 1

/-- Case-insensitive substring containment, the service-name filter
semantics in the words of the specification. -/
def icontains (hay pat : String) : Bool :=
  decide (pat.data.map Char.toLower <:+: hay.data.map Char.toLower)

/-- The candidate-retrieval predicate in the words of the specification:
start before the window end, end absent or after the window start, exact
user match when a user filter is given, case-insensitive substring match
on the service name when a service filter is given. -/
def claimRetrievalPred (f t : Month) (userID serviceName : Option String)
    (sub : Subscription) : Bool :=
  Month.le sub.startDate t &&
  (match sub.endDate with
   | none => true
   | some e => Month.le f e) &&
  (match userID with
   | none => true
   | some u => sub.userID == u) &&
  (match serviceName with
   | none => true
   | some s => icontains sub.serviceName s)

/-- The candidate-retrieval predicate with the service-name clause as the
code actually evaluates it: the stored name is matched against the SQL
pattern percent-filter-percent with full LIKE wildcard semantics. -/
def amendedRetrievalPred (f t : Month) (userID serviceName : Option String)
    (sub : Subscription) : Bool :=
  Month.le sub.startDate t &&
  (match sub.endDate with
   | none => true
   | some e => Month.le f e) &&
  (match userID with
   | none => true
   | some u => sub.userID == u) &&
  (match serviceName with
   | none => true
   | some s => ilike sub.serviceName ("%" ++ s ++ "%"))

/-- A filter string free of LIKE metacharacters: no percent, no
underscore, no backslash. -/
def noWildcards (pat : String) : Prop :=
  ∀ c ∈ pat.data, c ≠ '%' ∧ c ≠ '_' ∧ c ≠ '\\'

/-- Transitivity of the embedded date order. -/
theorem Month.le_trans {a b c : Month} (h1 : Month.le a b = true)
    (h2 : Month.le b c = true) : Month.le a c = true := by
  simp only [Month.le, decide_eq_true_eq] at h1 h2 ⊢
  omega

/-- Reflexivity of the embedded date order. -/
theorem Month.le_refl (a : Month) : Month.le a a = true := by
  simp [Month.le]

/-- Failure of the lax comparison is success of the converse strict one:
the embedded date order is total. -/
theorem Month.le_false_iff_lt {a b : Month} :
    Month.le a b = false ↔ Month.lt b a = true := by
  simp only [Month.le, Month.lt, decide_eq_false_iff_not, decide_eq_true_eq]
  omega

/-- The strict comparison is the negation of the converse lax one. -/
theorem Month.lt_eq_not_le (a b : Month) : Month.lt a b = !Month.le b a := by
  cases hle : Month.le b a <;> cases hlt : Month.lt a b <;>
    first
      | rfl
      | (exfalso
         simp only [Month.le, Month.lt, decide_eq_true_eq,
           decide_eq_false_iff_not] at hle hlt
         omega)

/-- GREATEST of a month with itself. -/
theorem Month.greatest_self (a : Month) : Month.greatest a a = a := by
  unfold Month.greatest
  split <;> rfl

/-- LEAST of a month with itself. -/
theorem Month.least_self (a : Month) : Month.least a a = a := by
  unfold Month.least
  split <;> rfl

/-- The two age parts recombine into the linear month span. -/
theorem ageSum (lo hi : Month) :
    ageYears lo hi * 12 + ageMonthsPart lo hi = Month.idx hi - Month.idx lo := by
  unfold ageYears ageMonthsPart
  omega

/-- The linear month span written through year and month components. -/
theorem idx_sub (lo hi : Month) :
    Month.idx hi - Month.idx lo =
      (hi.year - lo.year) * 12 + (hi.month - lo.month) := by
  unfold Month.idx
  ring

/-- The guarded age count of the SQL CASE coincides with the guarded
component count of the specification, for any pair of clip points. -/
theorem clip_count_eq (lo hi : Month) :
    (if Month.le lo hi then
        ageYears lo hi * 12 + ageMonthsPart lo hi + 1 else 0) =
    (if Month.lt hi lo then 0
     else (hi.year - lo.year) * 12 + (hi.month - lo.month) + 1) := by
  rw [Month.lt_eq_not_le]
  cases hcase : Month.le lo hi
  · simp
  · simp only [Bool.not_true, if_true, Bool.false_eq_true, if_false]
    have h1 := ageSum lo hi
    have h2 := idx_sub lo hi
    omega

/-- C1.  For every subscription and every query window with from <= to,
the months value computed inside the AggregateTotal SQL agrees with the
specification's overlapMonths: clip the effective end to the window, 0
when hi < lo, and otherwise the inclusive month count through year and
month components; and a subscription whose start, end and both window
edges coincide yields exactly 1. -/
theorem overlapMonths_eq_spec (f t : Month) (sub : Subscription)
    (hft : Month.le f t = true) :
    overlapMonths f t sub = overlapMonthsSpec f t sub ∧
    (sub.startDate = f → sub.endDate = some f → t = f →
      overlapMonths f t sub = 1) := by
  constructor
  · simp only [overlapMonths, overlapMonthsSpec, overlapLo, overlapHi]
    cases hE : sub.endDate <;>
      simp only [Option.getD_none, Option.getD_some] <;>
      exact clip_count_eq _ _
  · intro h1 h2 h3
    rw [h3]
    simp only [overlapMonths, overlapLo, overlapHi]
    rw [h1, h2]
    simp only [Option.getD_some]
    rw [Month.greatest_self, Month.least_self, if_pos (Month.le_refl f)]
    have h4 := ageSum f f
    omega

/-- Witness for C1 at a concrete subscription and window. -/
theorem overlapMonths_eq_spec_witness :
    Month.le ⟨2024, 1⟩ ⟨2024, 12⟩ = true ∧
    (overlapMonths ⟨2024, 1⟩ ⟨2024, 12⟩
        ⟨"i1", "Netflix", 100, "u1", ⟨2024, 1⟩, some ⟨2024, 3⟩⟩ =
      overlapMonthsSpec ⟨2024, 1⟩ ⟨2024, 12⟩
        ⟨"i1", "Netflix", 100, "u1", ⟨2024, 1⟩, some ⟨2024, 3⟩⟩ ∧
    ((⟨"i1", "Netflix", 100, "u1", ⟨2024, 1⟩, some ⟨2024, 3⟩⟩ :
        Subscription).startDate = ⟨2024, 1⟩ →
      (⟨"i1", "Netflix", 100, "u1", ⟨2024, 1⟩, some ⟨2024, 3⟩⟩ :
        Subscription).endDate = some ⟨2024, 1⟩ →
      (⟨2024, 12⟩ : Month) = ⟨2024, 1⟩ →
      overlapMonths ⟨2024, 1⟩ ⟨2024, 12⟩
        ⟨"i1", "Netflix", 100, "u1", ⟨2024, 1⟩, some ⟨2024, 3⟩⟩ = 1)) :=
  ⟨by decide, overlapMonths_eq_spec ⟨2024, 1⟩ ⟨2024, 12⟩
    ⟨"i1", "Netflix", 100, "u1", ⟨2024, 1⟩, some ⟨2024, 3⟩⟩ (by decide)⟩

/-- C6.  A failed repository round-trip is propagated unmodified by both
entry points: Aggregate returns 0 together with the very error value, and
AggregateWithDetails returns the nil breakdown and 0 together with the
very error value; no retry, no fallback, no partial result. -/
theorem retrieval_error_propagated {E : Type} (e : E) :
    Aggregate (Except.error e : Except E Int) = (0, some e) ∧
    AggregateWithDetails (Except.error e : Except E (List Subscription)) =
      (none, 0, some e) :=
  ⟨rfl, rfl⟩

/-- An empty-string user filter is turned into SQL NULL. -/
theorem effUserID_empty : effUserID (some "") = none := by
  rfl

/-- An empty-string service filter is turned into SQL NULL. -/
theorem effServicePattern_empty : effServicePattern (some "") = none := by
  rfl

/-- C10.  Passing a pointer to the empty string as either filter behaves
exactly like passing no filter at all, for the aggregation query, the
retrieval query, and the two service entry points built on them. -/
theorem emptyString_filter_like_nil (rows : List Subscription) (f t : Month)
    (uid sn : Option String) :
    AggregateTotal rows f t (some "") sn = AggregateTotal rows f t none sn ∧
    AggregateTotal rows f t uid (some "") = AggregateTotal rows f t uid none ∧
    FindSubscriptionsOverlapping rows f t (some "") sn =
      FindSubscriptionsOverlapping rows f t none sn ∧
    FindSubscriptionsOverlapping rows f t uid (some "") =
      FindSubscriptionsOverlapping rows f t uid none ∧
    Aggregate (E := Unit) (Except.ok (AggregateTotal rows f t (some "") sn)) =
      Aggregate (Except.ok (AggregateTotal rows f t none sn)) ∧
    AggregateWithDetails (E := Unit)
        (Except.ok (FindSubscriptionsOverlapping rows f t uid (some ""))) =
      AggregateWithDetails
        (Except.ok (FindSubscriptionsOverlapping rows f t uid none)) := by
  unfold AggregateTotal FindSubscriptionsOverlapping
  rw [effUserID_empty, effServicePattern_empty]
  exact ⟨rfl, rfl, rfl, rfl, rfl, rfl⟩

/-- C5.  When the WHERE clause admits no row, neither entry point fails:
Aggregate returns total 0 with no error, and AggregateWithDetails returns
the non-nil empty breakdown, total 0 and no error. -/
theorem empty_retrieval_not_error (E : Type) (rows : List Subscription)
    (f t : Month) (uid sn : Option String)
    (h : rows.filter
        (matchesWhere f t (effUserID uid) (effServicePattern sn)) = []) :
    Aggregate (E := E) (Except.ok (AggregateTotal rows f t uid sn)) =
      (0, none) ∧
    AggregateWithDetails (E := E)
        (Except.ok (FindSubscriptionsOverlapping rows f t uid sn)) =
      (some [], 0, none) := by
  unfold AggregateTotal FindSubscriptionsOverlapping
  rw [h]
  exact ⟨rfl, rfl⟩

/-- Totality of the byte-order comparison of character lists. -/
theorem charListLE_total : ∀ x y : List Char,
    charListLE x y = true ∨ charListLE y x = true
  | [], _ => Or.inl rfl
  | _ :: _, [] => Or.inr rfl
  | c :: cs, d :: ds => by
    by_cases hcd : c = d
    · subst hcd
      simp only [charListLE, if_pos rfl]
      exact charListLE_total cs ds
    · have hdc : ¬d = c := fun h => hcd h.symm
      simp only [charListLE, if_neg hcd, if_neg hdc]
      rcases lt_trichotomy c d with h | h | h
      · exact Or.inl (decide_eq_true h)
      · exact absurd h hcd
      · exact Or.inr (decide_eq_true h)

/-- Transitivity of the byte-order comparison of character lists. -/
theorem charListLE_trans : ∀ x y z : List Char,
    charListLE x y = true → charListLE y z = true → charListLE x z = true
  | [], _, _, _, _ => rfl
  | _ :: _, [], _, h1, _ => by simp [charListLE] at h1
  | _ :: _, _ :: _, [], _, h2 => by simp [charListLE] at h2
  | c :: cs, d :: ds, e :: es, h1, h2 => by
    by_cases hcd : c = d
    · subst hcd
      simp only [charListLE, if_pos rfl] at h1
      by_cases hce : c = e
      · subst hce
        simp only [charListLE, if_pos rfl] at h2 ⊢
        exact charListLE_trans cs ds es h1 h2
      · simp only [charListLE, if_neg hce] at h2 ⊢
        exact h2
    · simp only [charListLE, if_neg hcd, decide_eq_true_eq] at h1
      by_cases hde : d = e
      · subst hde
        simp only [charListLE, if_neg hcd]
        exact decide_eq_true h1
      · simp only [charListLE, if_neg hde, decide_eq_true_eq] at h2
        have hce : c < e := lt_trans h1 h2
        simp only [charListLE, if_neg (ne_of_lt hce)]
        exact decide_eq_true hce

instance : IsTotal Subscription nameLe :=
  ⟨fun a b => charListLE_total a.serviceName.data b.serviceName.data⟩

instance : IsTrans Subscription nameLe :=
  ⟨fun a b c => charListLE_trans a.serviceName.data b.serviceName.data
    c.serviceName.data⟩

/-- Mapping a function of the element part over an enumerated list is
mapping it over the list itself. -/
theorem enumFrom_map_snd {α β : Type} (g : α → β) :
    ∀ (n : Nat) (l : List α),
      (List.enumFrom n l).map (fun p => g p.2) = l.map g := by
  intro n l
  induction l generalizing n with
  | nil => rfl
  | cons a l ih => simp [List.enumFrom, ih]

/-- Mapping the index part plus one over an enumerated list yields the
consecutive integers starting one above the base. -/
theorem enumFrom_map_num {α : Type} :
    ∀ (n : Nat) (l : List α),
      (List.enumFrom n l).map (fun p => p.1 + 1) = List.range' (n + 1) l.length := by
  intro n l
  induction l generalizing n with
  | nil => rfl
  | cons a l ih => simp [List.enumFrom, List.range', ih]

/-- The breakdown built on a successfully retrieved list: service names,
prices and user ids are the rows' own, in retrieval order. -/
theorem details_map_fields {E : Type} (subs : List Subscription) :
    ((AggregateWithDetails (E := E) (Except.ok subs)).1.getD []).map
        (fun r => r.serviceName) = subs.map (fun s => s.serviceName) ∧
    ((AggregateWithDetails (E := E) (Except.ok subs)).1.getD []).map
        (fun r => r.price) = subs.map (fun s => s.price) ∧
    ((AggregateWithDetails (E := E) (Except.ok subs)).1.getD []).map
        (fun r => r.number) = List.range' 1 subs.length := by
  simp only [AggregateWithDetails, Option.getD_some, List.map_map]
  refine ⟨?_, ?_, ?_⟩
  · exact enumFrom_map_snd (fun s => s.serviceName) 0 subs
  · exact enumFrom_map_snd (fun s => s.price) 0 subs
  · exact enumFrom_map_num 0 subs

/-- C4.  The breakdown of AggregateWithDetails is ordered by service name
ascending and carries the sequence numbers 1..N in that order, N being
the number of retrieved candidates; on the concrete pair Spotify-then-
Netflix the breakdown comes out Netflix before Spotify with numbers 1, 2,
and two same-named rows keep their retrieval order. -/
theorem AggregateWithDetails_sorted_numbered (rows : List Subscription)
    (f t : Month) (uid sn : Option String) :
    List.Pairwise (fun a b : String => charListLE a.data b.data = true)
      (((AggregateWithDetails (E := Unit)
          (Except.ok (FindSubscriptionsOverlapping rows f t uid sn))).1.getD
        []).map fun r => r.serviceName) ∧
    ((AggregateWithDetails (E := Unit)
        (Except.ok (FindSubscriptionsOverlapping rows f t uid sn))).1.getD
      []).map (fun r => r.number) =
      List.range' 1 (FindSubscriptionsOverlapping rows f t uid sn).length ∧
    ((AggregateWithDetails (E := Unit)
        (Except.ok (FindSubscriptionsOverlapping
          [⟨"i2", "Spotify", 50, "u1", ⟨2024, 1⟩, none⟩,
           ⟨"i1", "Netflix", 100, "u1", ⟨2024, 1⟩, none⟩]
          ⟨2024, 1⟩ ⟨2024, 2⟩ none none))).1.getD []) =
      [⟨1, "Netflix", 100, "u1"⟩, ⟨2, "Spotify", 50, "u1"⟩] ∧
    ((AggregateWithDetails (E := Unit)
        (Except.ok (FindSubscriptionsOverlapping
          [⟨"i2", "Acme", 50, "uA", ⟨2024, 1⟩, none⟩,
           ⟨"i1", "Acme", 100, "uB", ⟨2024, 1⟩, none⟩]
          ⟨2024, 1⟩ ⟨2024, 2⟩ none none))).1.getD []) =
      [⟨1, "Acme", 50, "uA"⟩, ⟨2, "Acme", 100, "uB"⟩] := by
  obtain ⟨hnames, _, hnum⟩ :=
    details_map_fields (E := Unit) (FindSubscriptionsOverlapping rows f t uid sn)
  refine ⟨?_, hnum, by decide, by decide⟩
  rw [hnames]
  have hsorted : List.Sorted nameLe (FindSubscriptionsOverlapping rows f t uid sn) :=
    List.sorted_insertionSort nameLe _
  exact (List.pairwise_map).mpr hsorted

/-- C2.  On a successful retrieval the total of AggregateWithDetails is
the unweighted sum of the nominal prices of the retrieved candidates,
each breakdown row carries the flat monthly price, while AggregateTotal
is the overlap-weighted sum over the same candidate list; the two totals
genuinely diverge on a concrete input. -/
theorem AggregateWithDetails_total_flat (rows : List Subscription)
    (f t : Month) (uid sn : Option String) :
    (AggregateWithDetails (E := Unit)
        (Except.ok (FindSubscriptionsOverlapping rows f t uid sn))).2.1 =
      ((FindSubscriptionsOverlapping rows f t uid sn).map
        fun s => s.price).sum ∧
    ((AggregateWithDetails (E := Unit)
        (Except.ok (FindSubscriptionsOverlapping rows f t uid sn))).1.getD
      []).map (fun r => r.price) =
      (FindSubscriptionsOverlapping rows f t uid sn).map (fun s => s.price) ∧
    AggregateTotal rows f t uid sn =
      ((FindSubscriptionsOverlapping rows f t uid sn).map
        fun s => s.price * overlapMonths f t s).sum ∧
    (AggregateWithDetails (E := Unit)
        (Except.ok (FindSubscriptionsOverlapping
          [⟨"i1", "Netflix", 100, "u1", ⟨2024, 1⟩, some ⟨2024, 3⟩⟩]
          ⟨2024, 1⟩ ⟨2024, 12⟩ none none))).2.1 ≠
      AggregateTotal [⟨"i1", "Netflix", 100, "u1", ⟨2024, 1⟩, some ⟨2024, 3⟩⟩]
        ⟨2024, 1⟩ ⟨2024, 12⟩ none none := by
  obtain ⟨_, hprices, _⟩ :=
    details_map_fields (E := Unit) (FindSubscriptionsOverlapping rows f t uid sn)
  refine ⟨rfl, hprices, ?_, by decide⟩
  have hperm : (FindSubscriptionsOverlapping rows f t uid sn).Perm
      (rows.filter
        (matchesWhere f t (effUserID uid) (effServicePattern sn))) :=
    List.perm_insertionSort nameLe _
  exact ((hperm.map fun s => s.price * overlapMonths f t s).sum_eq).symm

/-- Witness for C5 on the empty table. -/
theorem empty_retrieval_not_error_witness :
    ([] : List Subscription).filter
        (matchesWhere ⟨2024, 1⟩ ⟨2024, 2⟩ (effUserID none)
          (effServicePattern none)) = [] ∧
    (Aggregate (E := Unit)
        (Except.ok (AggregateTotal [] ⟨2024, 1⟩ ⟨2024, 2⟩ none none)) =
      (0, none) ∧
    AggregateWithDetails (E := Unit)
        (Except.ok
          (FindSubscriptionsOverlapping [] ⟨2024, 1⟩ ⟨2024, 2⟩ none none)) =
      (some [], 0, none)) :=
  ⟨rfl, empty_retrieval_not_error Unit [] ⟨2024, 1⟩ ⟨2024, 2⟩ none none rfl⟩

/-- On real calendar months the embedded date order is the order of the
linear month index. -/
theorem Month.le_iff_idx {a b : Month} (ha : a.valid) (hb : b.valid) :
    Month.le a b = true ↔ Month.idx a ≤ Month.idx b := by
  obtain ⟨ha1, ha2⟩ := ha
  obtain ⟨hb1, hb2⟩ := hb
  simp only [Month.le, Month.idx, decide_eq_true_eq]
  omega

/-- GREATEST of two real months is the month of the larger index, and is
itself a real month. -/
theorem Month.greatest_idx {a b : Month} (ha : a.valid) (hb : b.valid) :
    (Month.greatest a b).idx = max a.idx b.idx ∧ (Month.greatest a b).valid := by
  unfold Month.greatest
  split
  · rename_i h
    rw [Month.le_iff_idx ha hb] at h
    exact ⟨(max_eq_right h).symm, hb⟩
  · rename_i h
    rw [Bool.not_eq_true] at h
    rw [Month.le_false_iff_lt] at h
    have hba : Month.le b a = true := by
      simp only [Month.lt, decide_eq_true_eq] at h
      simp only [Month.le, decide_eq_true_eq]
      omega
    rw [Month.le_iff_idx hb ha] at hba
    exact ⟨(max_eq_left hba).symm, ha⟩

/-- LEAST of two real months is the month of the smaller index, and is
itself a real month. -/
theorem Month.least_idx {a b : Month} (ha : a.valid) (hb : b.valid) :
    (Month.least a b).idx = min a.idx b.idx ∧ (Month.least a b).valid := by
  unfold Month.least
  split
  · rename_i h
    rw [Month.le_iff_idx ha hb] at h
    exact ⟨(min_eq_left h).symm, ha⟩
  · rename_i h
    rw [Bool.not_eq_true] at h
    rw [Month.le_false_iff_lt] at h
    have hba : Month.le b a = true := by
      simp only [Month.lt, decide_eq_true_eq] at h
      simp only [Month.le, decide_eq_true_eq]
      omega
    rw [Month.le_iff_idx hb ha] at hba
    exact ⟨(min_eq_right hba).symm, hb⟩

/-- Validity of the effective end COALESCE(end_date, to). -/
theorem effEnd_valid {t : Month} {sub : Subscription} (ht : t.valid)
    (he : ∀ e, sub.endDate = some e → e.valid) :
    (sub.endDate.getD t).valid := by
  cases hE : sub.endDate
  · exact ht
  · exact he _ hE

/-- The months value of the SQL CASE on real months, written through the
linear month index: clip the interval and count inclusively, never below
zero. -/
theorem overlapMonths_idx (f t : Month) (sub : Subscription)
    (hf : f.valid) (ht : t.valid) (hs : sub.startDate.valid)
    (he : ∀ e, sub.endDate = some e → e.valid) :
    overlapMonths f t sub =
      max 0 (min ((sub.endDate.getD t).idx) t.idx -
        max sub.startDate.idx f.idx + 1) := by
  have hE : (sub.endDate.getD t).valid := effEnd_valid ht he
  obtain ⟨hgi, hgv⟩ := Month.greatest_idx hs hf
  obtain ⟨hli, hlv⟩ := Month.least_idx hE ht
  unfold overlapMonths overlapLo overlapHi
  split
  · rename_i h
    rw [Month.le_iff_idx hgv hlv] at h
    have hsum := ageSum (Month.greatest sub.startDate f)
      (Month.least (sub.endDate.getD t) t)
    omega
  · rename_i h
    rw [Bool.not_eq_true, Month.le_false_iff_lt] at h
    have h2 : Month.le (Month.greatest sub.startDate f)
        (Month.least (sub.endDate.getD t) t) = false :=
      Month.le_false_iff_lt.mpr h
    have h3 : ¬ (Month.greatest sub.startDate f).idx ≤
        (Month.least (sub.endDate.getD t) t).idx := by
      intro hle
      rw [← Month.le_iff_idx hgv hlv] at hle
      rw [h2] at hle
      cases hle
    omega

/-- The months value of the SQL CASE is never negative on real months. -/
theorem overlapMonths_nonneg (f t : Month) (sub : Subscription)
    (hf : f.valid) (ht : t.valid) (hs : sub.startDate.valid)
    (he : ∀ e, sub.endDate = some e → e.valid) :
    0 ≤ overlapMonths f t sub := by
  rw [overlapMonths_idx f t sub hf ht hs he]
  exact le_max_left 0 _

/-- Widening the window never shrinks the months value of the SQL CASE. -/
theorem overlapMonths_window_mono (f t fw tw : Month) (sub : Subscription)
    (hfw : fw.valid) (hf : f.valid) (ht : t.valid) (htw : tw.valid)
    (hs : sub.startDate.valid) (he : ∀ e, sub.endDate = some e → e.valid)
    (h1 : Month.le fw f = true) (h3 : Month.le t tw = true) :
    overlapMonths f t sub ≤ overlapMonths fw tw sub := by
  rw [overlapMonths_idx f t sub hf ht hs he,
    overlapMonths_idx fw tw sub hfw htw hs he]
  have hif := (Month.le_iff_idx hfw hf).mp h1
  have hit := (Month.le_iff_idx ht htw).mp h3
  cases hE : sub.endDate
  · simp only [Option.getD_none]
    omega
  · simp only [hE, Option.getD_some]
    omega

/-- Widening the window never evicts a row from the WHERE clause. -/
theorem matchesWhere_window_mono {f t fw tw : Month} {uid pat : Option String}
    {sub : Subscription} (h1 : Month.le fw f = true)
    (h3 : Month.le t tw = true)
    (h : matchesWhere f t uid pat sub = true) :
    matchesWhere fw tw uid pat sub = true := by
  unfold matchesWhere at h ⊢
  simp only [Bool.and_eq_true] at h ⊢
  obtain ⟨⟨⟨hst, hend⟩, hu⟩, hp⟩ := h
  refine ⟨⟨⟨Month.le_trans hst h3, ?_⟩, hu⟩, hp⟩
  cases hE : sub.endDate
  · rfl
  · rw [hE] at hend
    exact Month.le_trans h1 hend

/-- Dropping the user clause never evicts a row from the WHERE clause. -/
theorem matchesWhere_drop_uid {f t : Month} {uid pat : Option String}
    {sub : Subscription} (h : matchesWhere f t uid pat sub = true) :
    matchesWhere f t none pat sub = true := by
  unfold matchesWhere at h ⊢
  simp only [Bool.and_eq_true] at h ⊢
  obtain ⟨⟨⟨hst, hend⟩, _⟩, hp⟩ := h
  exact ⟨⟨⟨hst, hend⟩, trivial⟩, hp⟩

/-- A filtered mapped sum is the full mapped sum with the predicate as an
indicator. -/
theorem filter_map_sum (q : Subscription → Bool) (g : Subscription → Int) :
    ∀ l : List Subscription,
      ((l.filter q).map g).sum = (l.map fun x => if q x then g x else 0).sum := by
  intro l
  induction l with
  | nil => rfl
  | cons a l ih =>
    by_cases h : q a <;> simp [List.filter_cons, h, ih]

/-- C8.  With fixed table contents and fixed filters, widening the query
window never decreases the aggregation total, provided the table holds
real months and non-negative prices. -/
theorem AggregateTotal_window_mono (rows : List Subscription)
    (f t fw tw : Month) (uid sn : Option String)
    (hfw : fw.valid) (hf : f.valid) (ht : t.valid) (htw : tw.valid)
    (h1 : Month.le fw f = true) (h2 : Month.le f t = true)
    (h3 : Month.le t tw = true)
    (hrows : ∀ sub ∈ rows, 0 ≤ sub.price ∧ sub.startDate.valid ∧
      ∀ e, sub.endDate = some e → e.valid) :
    AggregateTotal rows f t uid sn ≤ AggregateTotal rows fw tw uid sn := by
  unfold AggregateTotal
  rw [filter_map_sum, filter_map_sum]
  apply List.sum_le_sum
  intro sub hmem
  obtain ⟨hp, hsv, hev⟩ := hrows sub hmem
  by_cases hq : matchesWhere f t (effUserID uid) (effServicePattern sn) sub = true
  · rw [if_pos hq, if_pos (matchesWhere_window_mono h1 h3 hq)]
    exact mul_le_mul_of_nonneg_left
      (overlapMonths_window_mono f t fw tw sub hfw hf ht htw hsv hev h1 h3) hp
  · rw [if_neg hq]
    split
    · exact mul_nonneg hp (overlapMonths_nonneg fw tw sub hfw htw hsv hev)
    · exact le_refl 0

/-- Witness for C8 on a one-row table and nested concrete windows. -/
theorem AggregateTotal_window_mono_witness :
    (⟨2023, 11⟩ : Month).valid ∧ (⟨2024, 1⟩ : Month).valid ∧
    (⟨2024, 3⟩ : Month).valid ∧ (⟨2024, 6⟩ : Month).valid ∧
    Month.le ⟨2023, 11⟩ ⟨2024, 1⟩ = true ∧
    Month.le ⟨2024, 1⟩ ⟨2024, 3⟩ = true ∧
    Month.le ⟨2024, 3⟩ ⟨2024, 6⟩ = true ∧
    (∀ sub ∈ [(⟨"i1", "Netflix", 100, "u1", ⟨2024, 1⟩, some ⟨2024, 4⟩⟩ :
        Subscription)], 0 ≤ sub.price ∧ sub.startDate.valid ∧
      ∀ e, sub.endDate = some e → e.valid) ∧
    AggregateTotal [⟨"i1", "Netflix", 100, "u1", ⟨2024, 1⟩, some ⟨2024, 4⟩⟩]
        ⟨2024, 1⟩ ⟨2024, 3⟩ none none ≤
      AggregateTotal [⟨"i1", "Netflix", 100, "u1", ⟨2024, 1⟩, some ⟨2024, 4⟩⟩]
        ⟨2023, 11⟩ ⟨2024, 6⟩ none none :=
  ⟨by decide, by decide, by decide, by decide, by decide, by decide, by decide,
    by decide,
    AggregateTotal_window_mono
      [⟨"i1", "Netflix", 100, "u1", ⟨2024, 1⟩, some ⟨2024, 4⟩⟩]
      ⟨2024, 1⟩ ⟨2024, 3⟩ ⟨2023, 11⟩ ⟨2024, 6⟩ none none
      (by decide) (by decide) (by decide) (by decide)
      (by decide) (by decide) (by decide) (by decide)⟩

/-- C9.  With fixed table contents, adding a concrete user filter can
only reduce or preserve the aggregation total, provided the table holds
real months and non-negative prices. -/
theorem AggregateTotal_user_filter_le (rows : List Subscription)
    (f t : Month) (u : String) (sn : Option String)
    (hf : f.valid) (ht : t.valid)
    (hrows : ∀ sub ∈ rows, 0 ≤ sub.price ∧ sub.startDate.valid ∧
      ∀ e, sub.endDate = some e → e.valid) :
    AggregateTotal rows f t (some u) sn ≤ AggregateTotal rows f t none sn := by
  unfold AggregateTotal
  rw [filter_map_sum, filter_map_sum,
    show effUserID none = none from rfl]
  apply List.sum_le_sum
  intro sub hmem
  obtain ⟨hp, hsv, hev⟩ := hrows sub hmem
  by_cases hq : matchesWhere f t (effUserID (some u))
      (effServicePattern sn) sub = true
  · rw [if_pos hq, if_pos (matchesWhere_drop_uid hq)]
  · rw [if_neg hq]
    split
    · exact mul_nonneg hp (overlapMonths_nonneg f t sub hf ht hsv hev)
    · exact le_refl 0

/-- Witness for C9 on a two-user table and a concrete user filter. -/
theorem AggregateTotal_user_filter_le_witness :
    (⟨2024, 1⟩ : Month).valid ∧ (⟨2024, 3⟩ : Month).valid ∧
    (∀ sub ∈ [(⟨"i1", "Netflix", 100, "u1", ⟨2024, 1⟩, none⟩ : Subscription),
        ⟨"i2", "Spotify", 50, "u2", ⟨2024, 1⟩, none⟩],
      0 ≤ sub.price ∧ sub.startDate.valid ∧
        ∀ e, sub.endDate = some e → e.valid) ∧
    AggregateTotal [⟨"i1", "Netflix", 100, "u1", ⟨2024, 1⟩, none⟩,
        ⟨"i2", "Spotify", 50, "u2", ⟨2024, 1⟩, none⟩]
        ⟨2024, 1⟩ ⟨2024, 3⟩ (some "u1") none ≤
      AggregateTotal [⟨"i1", "Netflix", 100, "u1", ⟨2024, 1⟩, none⟩,
        ⟨"i2", "Spotify", 50, "u2", ⟨2024, 1⟩, none⟩]
        ⟨2024, 1⟩ ⟨2024, 3⟩ none none :=
  ⟨by decide, by decide, by decide,
    AggregateTotal_user_filter_le
      [⟨"i1", "Netflix", 100, "u1", ⟨2024, 1⟩, none⟩,
        ⟨"i2", "Spotify", 50, "u2", ⟨2024, 1⟩, none⟩]
      ⟨2024, 1⟩ ⟨2024, 3⟩ "u1" none (by decide) (by decide) (by decide)⟩

/-- C7.  Under the documented invariants (window in order, real months,
end not before start) every row admitted to the breakdown has a positive
overlap with the window: the WHERE clause admits no zero-overlap row. -/
theorem retrieved_overlap_pos (rows : List Subscription) (f t : Month)
    (uid sn : Option String) (sub : Subscription)
    (hf : f.valid) (ht : t.valid) (hft : Month.le f t = true)
    (hs : sub.startDate.valid)
    (he : ∀ e, sub.endDate = some e →
      e.valid ∧ Month.le sub.startDate e = true)
    (hmem : sub ∈ FindSubscriptionsOverlapping rows f t uid sn) :
    1 ≤ overlapMonths f t sub := by
  have hmem2 : sub ∈ rows.filter
      (matchesWhere f t (effUserID uid) (effServicePattern sn)) :=
    ((List.perm_insertionSort nameLe _).mem_iff).mp hmem
  have hq := (List.mem_filter.mp hmem2).2
  unfold matchesWhere at hq
  simp only [Bool.and_eq_true] at hq
  obtain ⟨⟨⟨hst, hend⟩, _⟩, _⟩ := hq
  rw [overlapMonths_idx f t sub hf ht hs (fun e hE => (he e hE).1)]
  have hft2 := (Month.le_iff_idx hf ht).mp hft
  have hst2 := (Month.le_iff_idx hs ht).mp hst
  cases hE : sub.endDate
  · simp only [Option.getD_none]
    omega
  · rename_i e
    obtain ⟨hev, hse⟩ := he e hE
    rw [hE] at hend
    have h1 := (Month.le_iff_idx hf hev).mp hend
    have h2 := (Month.le_iff_idx hs hev).mp hse
    simp only [hE, Option.getD_some]
    omega

/-- Witness for C7 on a one-row table whose row is retrieved. -/
theorem retrieved_overlap_pos_witness :
    (⟨2024, 1⟩ : Month).valid ∧ (⟨2024, 3⟩ : Month).valid ∧
    Month.le ⟨2024, 1⟩ ⟨2024, 3⟩ = true ∧
    ((⟨"i1", "Netflix", 100, "u1", ⟨2024, 2⟩, some ⟨2024, 2⟩⟩ :
      Subscription).startDate).valid ∧
    (∀ e, (⟨"i1", "Netflix", 100, "u1", ⟨2024, 2⟩, some ⟨2024, 2⟩⟩ :
        Subscription).endDate = some e →
      e.valid ∧ Month.le (⟨2024, 2⟩ : Month) e = true) ∧
    (⟨"i1", "Netflix", 100, "u1", ⟨2024, 2⟩, some ⟨2024, 2⟩⟩ : Subscription) ∈
      FindSubscriptionsOverlapping
        [⟨"i1", "Netflix", 100, "u1", ⟨2024, 2⟩, some ⟨2024, 2⟩⟩]
        ⟨2024, 1⟩ ⟨2024, 3⟩ none none ∧
    1 ≤ overlapMonths ⟨2024, 1⟩ ⟨2024, 3⟩
      ⟨"i1", "Netflix", 100, "u1", ⟨2024, 2⟩, some ⟨2024, 2⟩⟩ :=
  ⟨by decide, by decide, by decide, by decide, by decide, by decide,
    retrieved_overlap_pos
      [⟨"i1", "Netflix", 100, "u1", ⟨2024, 2⟩, some ⟨2024, 2⟩⟩]
      ⟨2024, 1⟩ ⟨2024, 3⟩ none none
      ⟨"i1", "Netflix", 100, "u1", ⟨2024, 2⟩, some ⟨2024, 2⟩⟩
      (by decide) (by decide) (by decide) (by decide) (by decide) (by decide)⟩

/-- Unfolding of the matcher at a leading percent: some suffix of the
text must match the rest of the pattern. -/
theorem likeMatch_percent_eq (ps t : List Char) :
    likeMatch ('%' :: ps) t = t.tails.any fun s => likeMatch ps s := by
  rw [likeMatch.eq_def]
  dsimp only
  rw [if_pos rfl]

/-- The pattern consisting of a single percent matches every text. -/
theorem likeMatch_lone_percent (t : List Char) : likeMatch ['%'] t = true := by
  rw [likeMatch_percent_eq, List.any_eq_true]
  exact ⟨[], (List.mem_tails _ _).mpr List.nil_suffix, rfl⟩

/-- A metacharacter-free pattern followed by a percent matches a text
exactly when some prefix of the text equals the pattern up to case. -/
theorem likeMatch_plain_percent :
    ∀ p : List Char, (∀ c ∈ p, c ≠ '%' ∧ c ≠ '_' ∧ c ≠ '\\') →
    ∀ t : List Char,
      (likeMatch (p ++ ['%']) t = true ↔
        ∃ b, b <+: t ∧ b.map Char.toLower = p.map Char.toLower) := by
  intro p
  induction p with
  | nil =>
    intro _ t
    simp only [List.nil_append, List.map_nil]
    exact iff_of_true (likeMatch_lone_percent t)
      ⟨[], List.nil_prefix, List.map_nil⟩
  | cons c p ih =>
    intro hno t
    have hc := hno c (List.mem_cons_self c p)
    have hp : ∀ x ∈ p, x ≠ '%' ∧ x ≠ '_' ∧ x ≠ '\\' :=
      fun x hx => hno x (List.mem_cons_of_mem c hx)
    rw [List.cons_append]
    cases t with
    | nil =>
      rw [likeMatch.eq_def]
      dsimp only
      rw [if_neg hc.1, if_neg hc.2.1, if_neg hc.2.2]
      constructor
      · intro h
        cases h
      · rintro ⟨b, hb, hmap⟩
        rw [List.prefix_nil.mp hb] at hmap
        simp at hmap
    | cons d ts =>
      rw [likeMatch.eq_def]
      dsimp only
      rw [if_neg hc.1, if_neg hc.2.1, if_neg hc.2.2]
      simp only [Bool.and_eq_true, beq_iff_eq]
      constructor
      · rintro ⟨hcd, hrest⟩
        obtain ⟨b, hb, hmap⟩ := (ih hp ts).mp hrest
        refine ⟨d :: b, List.cons_prefix_cons.mpr ⟨rfl, hb⟩, ?_⟩
        simp only [List.map_cons, hmap, hcd]
      · rintro ⟨b, hb, hmap⟩
        cases b with
        | nil => simp at hmap
        | cons x b2 =>
          obtain ⟨hx, hb2⟩ := List.cons_prefix_cons.mp hb
          subst hx
          simp only [List.map_cons, List.cons.injEq] at hmap
          obtain ⟨hxc, hmap2⟩ := hmap
          exact ⟨hxc.symm, (ih hp ts).mpr ⟨b2, hb2, hmap2⟩⟩

/-- For a filter free of LIKE metacharacters the pattern built by the
store, percent-filter-percent, is exactly case-insensitive substring
containment. -/
theorem ilike_wrapped_eq_icontains (name pat : String) (hw : noWildcards pat) :
    ilike name ("%" ++ pat ++ "%") = icontains name pat := by
  have hdata : ("%" ++ pat ++ "%").data = '%' :: (pat.data ++ ['%']) := by
    rw [String.data_append, String.data_append]
    simp
  rw [Bool.eq_iff_iff]
  unfold ilike icontains
  rw [hdata, likeMatch_percent_eq, List.any_eq_true, decide_eq_true_eq]
  constructor
  · rintro ⟨s, hs, hm⟩
    rw [List.mem_tails] at hs
    obtain ⟨b, hb, hmap⟩ := (likeMatch_plain_percent pat.data hw s).mp hm
    rw [← hmap]
    exact List.IsInfix.map Char.toLower
      (List.infix_iff_prefix_suffix.mpr ⟨s, hb, hs⟩)
  · intro h
    obtain ⟨x, y, hxy⟩ := h
    have hsplit : name.data.map Char.toLower =
        x ++ (pat.data.map Char.toLower ++ y) := by
      rw [← hxy, List.append_assoc]
    obtain ⟨l1, l2, hl, hx1, hrest⟩ := List.map_eq_append_iff.mp hsplit
    obtain ⟨m1, m2, hm12, hmm, hy2⟩ := List.map_eq_append_iff.mp hrest
    refine ⟨m1 ++ m2, ?_, ?_⟩
    · rw [List.mem_tails]
      refine ⟨l1, ?_⟩
      rw [← hm12]
      exact hl.symm
    · exact (likeMatch_plain_percent pat.data hw (m1 ++ m2)).mpr
        ⟨m1, List.prefix_append m1 m2, hmm⟩

/-- For non-empty filters the evaluated WHERE clause is the amended
retrieval predicate. -/
theorem matchesWhere_eq_amended (f t : Month) (uid sn : Option String)
    (sub : Subscription) (hu : uid ≠ some "") (hs : sn ≠ some "") :
    matchesWhere f t (effUserID uid) (effServicePattern sn) sub =
      amendedRetrievalPred f t uid sn sub := by
  have huid : effUserID uid = uid := by
    cases uid with
    | none => rfl
    | some u =>
      show (if u = "" then (none : Option String) else some u) = some u
      rw [if_neg (fun h : u = "" => hu (by rw [h]))]
  rw [huid]
  cases sn with
  | none => rfl
  | some s =>
    have hpat : effServicePattern (some s) = some ("%" ++ s ++ "%") := by
      show (if s = "" then (none : Option String)
        else some ("%" ++ s ++ "%")) = some ("%" ++ s ++ "%")
      rw [if_neg (fun h : s = "" => hs (by rw [h]))]
    rw [hpat]
    rfl

/-- C3 counterexample.  The filter "n_tflix" is not a case-insensitive
substring of the stored name "Netflix", so under the claimed predicate
the row must not be retrieved; the code retrieves it, because the
underscore reached Postgres ILIKE as a single-character wildcard. -/
theorem retrieval_substring_counterexample :
    FindSubscriptionsOverlapping
        [⟨"i1", "Netflix", 9, "u1", ⟨2024, 1⟩, none⟩]
        ⟨2024, 1⟩ ⟨2024, 2⟩ none (some "n_tflix") =
      [⟨"i1", "Netflix", 9, "u1", ⟨2024, 1⟩, none⟩] ∧
    claimRetrievalPred ⟨2024, 1⟩ ⟨2024, 2⟩ none (some "n_tflix")
      ⟨"i1", "Netflix", 9, "u1", ⟨2024, 1⟩, none⟩ = false := by
  decide

/-- C3 amended.  For every window and non-empty optional filters, both
entry points retrieve exactly the rows satisfying: startDate <= to, AND
endDate absent or >= from, AND exact user match when a user filter is
given, AND, when a service filter is given, the stored name matches the
SQL pattern percent-filter-percent under LIKE wildcard semantics; for
filters free of LIKE metacharacters that clause is precisely
case-insensitive substring containment, so "net" matches "Netflix" and
not "Spotify". -/
theorem retrieval_pred_amended (rows : List Subscription) (f t : Month)
    (uid sn : Option String) (sub : Subscription)
    (hu : uid ≠ some "") (hs : sn ≠ some "") :
    (sub ∈ FindSubscriptionsOverlapping rows f t uid sn ↔
      sub ∈ rows ∧ amendedRetrievalPred f t uid sn sub = true) ∧
    AggregateTotal rows f t uid sn =
      ((rows.filter (amendedRetrievalPred f t uid sn)).map
        fun s => s.price * overlapMonths f t s).sum ∧
    (∀ (name pat : String), noWildcards pat →
      ilike name ("%" ++ pat ++ "%") = icontains name pat) ∧
    ilike "Netflix" "%net%" = true ∧ ilike "Spotify" "%net%" = false := by
  have hfc : rows.filter
      (matchesWhere f t (effUserID uid) (effServicePattern sn)) =
      rows.filter (amendedRetrievalPred f t uid sn) :=
    List.filter_congr (fun x _ => matchesWhere_eq_amended f t uid sn x hu hs)
  refine ⟨?_, ?_, fun n p hw => ilike_wrapped_eq_icontains n p hw,
    by decide, by decide⟩
  · unfold FindSubscriptionsOverlapping
    rw [hfc, (List.perm_insertionSort nameLe _).mem_iff, List.mem_filter]
  · unfold AggregateTotal
    rw [hfc]

/-- Witness for the amended C3 on a one-row table with the filter
"net". -/
theorem retrieval_pred_amended_witness :
    ((none : Option String) ≠ some "") ∧ ((some "net" : Option String) ≠ some "") ∧
    (((⟨"i1", "Netflix", 9, "u1", ⟨2024, 1⟩, none⟩ : Subscription) ∈
        FindSubscriptionsOverlapping
          [⟨"i1", "Netflix", 9, "u1", ⟨2024, 1⟩, none⟩]
          ⟨2024, 1⟩ ⟨2024, 2⟩ none (some "net") ↔
      (⟨"i1", "Netflix", 9, "u1", ⟨2024, 1⟩, none⟩ : Subscription) ∈
          [(⟨"i1", "Netflix", 9, "u1", ⟨2024, 1⟩, none⟩ : Subscription)] ∧
        amendedRetrievalPred ⟨2024, 1⟩ ⟨2024, 2⟩ none (some "net")
          ⟨"i1", "Netflix", 9, "u1", ⟨2024, 1⟩, none⟩ = true) ∧
    AggregateTotal [⟨"i1", "Netflix", 9, "u1", ⟨2024, 1⟩, none⟩]
        ⟨2024, 1⟩ ⟨2024, 2⟩ none (some "net") =
      (([(⟨"i1", "Netflix", 9, "u1", ⟨2024, 1⟩, none⟩ : Subscription)].filter
          (amendedRetrievalPred ⟨2024, 1⟩ ⟨2024, 2⟩ none (some "net"))).map
        fun s => s.price *
          overlapMonths ⟨2024, 1⟩ ⟨2024, 2⟩ s).sum ∧
    (∀ (name pat : String), noWildcards pat →
      ilike name ("%" ++ pat ++ "%") = icontains name pat) ∧
    ilike "Netflix" "%net%" = true ∧ ilike "Spotify" "%net%" = false) :=
  ⟨by decide, by decide,
    retrieval_pred_amended [⟨"i1", "Netflix", 9, "u1", ⟨2024, 1⟩, none⟩]
      ⟨2024, 1⟩ ⟨2024, 2⟩ none (some "net")
      ⟨"i1", "Netflix", 9, "u1", ⟨2024, 1⟩, none⟩
      (by decide) (by decide)⟩

end SubscriptionService
